import Mathlib

/-!
Workshop fleet setup tool (`tools/setup/setup.go`).

A shallow embedding of the reconciliation code of `setup.go` and the properties
its specification states about it.

Modelling conventions

* A Go `string` is a sequence of runes, `Str := List Char` (well-formed UTF-8 text).
* A Go `map[string]V` is a finite lookup function `GoMap V`; `m[k] = v` is `GoMap.set`.
* Calls to the compute/DNS provider, log lines and prints are recorded, in program
  order, in a trace of `Event`s.  What the provider answers is given by a `Provider`,
  which sees the calls issued so far.
* A Go run-time panic is an explicit `Panic` result.
-/

namespace Setup

/-! ## Strings -/

/-- A Go string, as its sequence of runes. -/
abbrev Str := List Char

/-- Go `unicode.IsSpace`: the Latin-1 space characters and the other code points
with the Unicode `White_Space` property. -/
def isSpace (r : Char) : Bool :=
  let n := r.toNat
  n == 0x09 || n == 0x0A || n == 0x0B || n == 0x0C || n == 0x0D || n == 0x20 ||
  n == 0x85 || n == 0xA0 || n == 0x1680 || (0x2000 ≤ n && n ≤ 0x200A) ||
  n == 0x2028 || n == 0x2029 || n == 0x202F || n == 0x205F || n == 0x3000

/-- Go `strings.TrimSpace`: drop the leading and the trailing white space. -/
def trimSpace (s : Str) : Str :=
  ((s.dropWhile isSpace).reverse.dropWhile isSpace).reverse

/-- Go `unicode.ToLower`: ASCII is handled inline (`'A'..'Z'` are shifted by
`'a' - 'A'`), every other rune goes through the Unicode case table
`unicode.To(unicode.LowerCase, r)`.  The table belongs to the Go library and is
the parameter `tbl`. -/
def toLowerRune (tbl : Char → Char) (r : Char) : Char :=
  if r.toNat ≤ 0x7F then
    if 0x41 ≤ r.toNat ∧ r.toNat ≤ 0x5A then Char.ofNat (r.toNat + 0x20) else r
  else tbl r

/-- Go `strings.ToLower`: every rune mapped to lower case. -/
def toLower (tbl : Char → Char) (s : Str) : Str :=
  s.map (toLowerRune tbl)

/-- Go `strings.ReplaceAll(s, old, new)` for patterns `old`, `new` of one rune each:
every occurrence of the rune is replaced. -/
def replaceAll (s : Str) (old new : Char) : Str :=
  s.map (fun c => if c = old then new else c)

/-- Go `strings.Split(s, sep)` for a separator of one rune: the fields between the
separators, in order; a string without separator is its own single field. -/
def split (sep : Char) : Str → List Str
  | [] => [[]]
  | c :: cs =>
    if c = sep then [] :: split sep cs
    else
      match split sep cs with
      | [] => [[c]]
      | p :: ps => (c :: p) :: ps

/-- Go `strings.TrimSuffix(s, suffix)`: `s` without the trailing `suffix`, or `s`
unchanged when it does not end in `suffix`. -/
def trimSuffix (s suf : Str) : Str :=
  if suf.isSuffixOf s then s.take (s.length - suf.length) else s

/-! ## Constants of `setup.go` -/

def sshFingerprint : Str := String.toList "5c:48:95:fa:ec:f4:3c:76:78:f2:77:1b:ad:a5:7c:d4"
def region : Str := String.toList "fra1"
def distribution : Str := String.toList "ubuntu-21-04-x64"
def size : Str := String.toList "s-2vcpu-4gb-amd"
def dropletTag : Str := String.toList "nice-workshop"
def domain : Str := String.toList "encero.xyz"

def defaultKey : Str :=
  String.toList "ssh-ed25519 AAAAC3NzaC1lZDI1NTE5AAAAIHfXEOvy8FgUbO4Wile2w1M9p575UUltJGqZ9MvOtrpl"

/-! ## Data model -/

/-- The `user` struct. -/
structure user where
  name : Str
  hostname : Str
  Keys : List Str
  deriving DecidableEq, Repr

/-- The part of `godo.NetworkV4` that `PublicIPv4()` reads. -/
structure NetworkV4 where
  IPAddress : Str
  Type_ : Str
  deriving DecidableEq, Repr

/-- The part of `godo.Networks` that `PublicIPv4()` reads. -/
structure Networks where
  V4 : List NetworkV4
  deriving DecidableEq, Repr

/-- The method `PublicIPv4()` of the godo library, as a function of the `Networks`
pointer of the droplet (`none` for nil): an error (`none`) when the pointer is nil;
otherwise the address of the first V4 network of type "public", and the empty
string, with a nil error, when the droplet has no such network. -/
def godoPublicIPv4 (networks : Option Networks) : Option Str :=
  match networks with
  | none => none
  | some n =>
    match n.V4.find? (fun v4 => v4.Type_ = String.toList "public") with
    | some v4 => some v4.IPAddress
    | none => some []

/-- The part of `godo.Droplet` the tool reads: its `Name`, and what the method
`PublicIPv4()` returns for it: `none` when it returns an error, `some addr` when it
returns `addr` with a nil error (see `godoPublicIPv4`: `addr` is the empty string
for a droplet that has networks, none of them public). -/
structure Droplet where
  Name : Str
  PublicIPv4 : Option Str
  deriving DecidableEq, Repr

/-- The part of `godo.DomainRecord` the tool reads. -/
structure DomainRecord where
  ID : Int
  Type_ : Str
  Name : Str
  Data : Str
  TTL : Int
  deriving DecidableEq, Repr

/-- A Go `map[string]V`. -/
def GoMap (V : Type) := Str → Option V

/-- The empty map, `make(map[string]V)`. -/
def GoMap.empty {V : Type} : GoMap V := fun _ => none

/-- The assignment `m[k] = v`. -/
def GoMap.set {V : Type} (m : GoMap V) (k : Str) (v : V) : GoMap V :=
  fun k1 => if k1 = k then some v else m k1

/-! ## Identity normalizer -/

/-- The function `normalizeName`: trim, lower-case, replace every "." by "-". -/
def normalizeName (tbl : Char → Char) (name : Str) : Str :=
  let name := trimSpace name
  let name := toLower tbl name
  let name := replaceAll name '.' '-'
  name

/-- The function `dropletHostnameFromName`: `fmt.Sprintf("%s.%s", name, domain)`. -/
def dropletHostnameFromName (name : Str) : Str :=
  name ++ '.' :: domain

/-! ## Diff engine -/

/-- The function `dropletDiff`: index the observed droplets by name, then keep, in order, the
wanted users whose hostname is not a key of the index. -/
def dropletDiff (wantUsers : List user) (currentDroplets : List Droplet) : List user :=
  let dropMap : GoMap Droplet :=
    currentDroplets.foldl (fun m d => m.set d.Name d) GoMap.empty
  wantUsers.foldl
    (fun missing usr =>
      match dropMap usr.hostname with
      | some _ => missing
      | none => missing ++ [usr])
    []

/-! ## Effects: provider calls, logging, panics -/

/-- The fields of `godo.DomainRecordEditRequest` the tool sets; a field it leaves
out has Go's zero value. -/
structure DomainRecordEditRequest where
  Type_ : Str := []
  Name : Str := []
  Data : Str := []
  TTL : Int := 0
  deriving DecidableEq, Repr

/-- The fields of `godo.DropletCreateRequest` the tool sets (`Image` is the image
slug, `SSHKeys` the key fingerprints). -/
structure DropletCreateRequest where
  Name : Str
  Region : Str
  Size : Str
  Image : Str
  SSHKeys : List Str
  Tags : List Str
  UserData : Str
  deriving DecidableEq, Repr

/-- The mutating provider calls of the tool. -/
inductive Call where
  | DomainsCreateRecord (zone : Str) (req : DomainRecordEditRequest)
  | DomainsEditRecord (zone : Str) (id : Int) (req : DomainRecordEditRequest)
  | DropletsCreate (req : DropletCreateRequest)
  deriving DecidableEq, Repr

/-- The part of `godo.Response` the tool reads: the remaining request quota. -/
structure Response where
  Remaining : Int
  deriving DecidableEq, Repr

/-- What a provider call returns: the response (`none` for a nil pointer) and the
error (`none` for `nil`). -/
structure Reply where
  res : Option Response
  err : Option Str
  deriving DecidableEq, Repr

/-- The remote provider: its answer to a call, given the calls issued before it. -/
abbrev Provider := List Call → Call → Reply

inductive Level where
  | info
  | error
  deriving DecidableEq, Repr

/-- A value passed to a formatting function. -/
inductive Arg where
  | str (s : Str)
  | int (n : Int)
  | request (r : DropletCreateRequest)
  deriving DecidableEq, Repr

/-- What the tool does to the outside world. `log` is a line of the zap logger
(`Error(x)` without a format is recorded with the format "%v"), `stdout` a line
printed with `fmt` or `spew`. -/
inductive Event where
  | call (c : Call)
  | log (lvl : Level) (format : String) (args : List Arg)
  | stdout (format : String) (args : List Arg)
  deriving DecidableEq, Repr

/-- The provider calls of a trace, in order. -/
def callsOf (tr : List Event) : List Call :=
  tr.filterMap (fun e => match e with
    | .call c => some c
    | _ => none)

/-- A Go run-time panic. -/
inductive Panic where
  | nilDereference
  | indexOutOfRange
  | error (msg : Str)
  deriving DecidableEq, Repr

/-- The function `reportReachingLimit`: a line on standard output when fewer than 200
requests remain. -/
def reportReachingLimit (res : Option Response) (tr : List Event) : List Event :=
  match res with
  | none => tr
  | some r =>
    if r.Remaining < 200 then
      tr ++ [.stdout "Reaching DO request limit, remainging: %d" [.int r.Remaining]]
    else tr

/-! ## DNS synchronizer -/

/-- The function `createDomainRecord`: one `CreateRecord` call for an A record with TTL 30; returns
the trace and the error of the call. -/
def createDomainRecord (P : Provider) (subdomain ip : Str) (tr : List Event) :
    List Event × Option Str :=
  let c := Call.DomainsCreateRecord (String.toList "encero.xyz")
    { Type_ := ['A'], Name := subdomain, Data := ip, TTL := 30 }
  let reply := P (callsOf tr) c
  let tr := tr ++ [.call c]
  let tr := reportReachingLimit reply.res tr
  (tr, reply.err)

/-- The function `updateRecord`: create the record of the label when the map has none,
leave it when its data is the address, edit it otherwise. -/
def updateRecord (P : Provider) (subdomain : Str) (records : GoMap DomainRecord)
    (addr : Str) (tr : List Event) : List Event :=
  match records subdomain with
  | none =>
    let (tr, err) := createDomainRecord P subdomain addr tr
    let tr := match err with
      | some e => tr ++ [.log .error "%v" [.str e]]
      | none => tr
    tr ++ [.log .info "created domain %s %s" [.str subdomain, .str addr]]
  | some re =>
    if re.Data = addr then
      tr ++ [.log .info "no domain change %s" [.str subdomain]]
    else
      let c := Call.DomainsEditRecord domain re.ID { Data := addr }
      let reply := P (callsOf tr) c
      let tr := tr ++ [.call c]
      let tr := reportReachingLimit reply.res tr
      match reply.err with
      | some e => tr ++ [.log .error "%v" [.str e]]
      | none =>
        tr ++ [.log .info "changed domain record for %s %s -> %s"
          [.str subdomain, .str re.Data, .str addr]]

/-- The local `dropletNameSuffix` of `runSetup`: "." followed by the domain. -/
def dropletNameSuffix : Str := '.' :: domain

/-- The `recordMap` of `runSetup`: the zone records indexed by name, a later record
replacing an earlier one of the same name. -/
def recordMap (records : List DomainRecord) : GoMap DomainRecord :=
  records.foldl (fun m re => m.set re.Name re) GoMap.empty

/-- The DNS pass of `runSetup` (from `recordMap := make(...)` to the end): index the
zone records by name, then update the record of the label and of the wildcard label
of every droplet for which `PublicIPv4()` returns no error. -/
def dnsSync (P : Provider) (records : List DomainRecord) (currentDroplets : List Droplet)
    (tr : List Event) : List Event :=
  let recordMap := recordMap records
  currentDroplets.foldl
    (fun tr d =>
      match d.PublicIPv4 with
      | none =>
        tr ++ [.log .error "missing public IPv4 adress for droplet %s" [.str d.Name]]
      | some addr =>
        let subdomain := trimSuffix d.Name dropletNameSuffix
        let wildcard := '*' :: '.' :: subdomain
        let tr := updateRecord P subdomain recordMap addr tr
        updateRecord P wildcard recordMap addr tr)
    tr

/-! ## Instance provisioner -/

/-- The function `createDroplet`. `dryrun` and `debug` are the command-line flags, `tpl` is the
outcome of executing the user-data template on a user (the rendered text, or the
error). Returns the trace and the panic, if the function panics. -/
def createDroplet (dryrun debug : Bool) (tpl : user → Except Str Str) (P : Provider)
    (usr : user) (tr : List Event) : List Event × Option Panic :=
  match tpl usr with
  | .error e => (tr ++ [.log .error "%v%v" [.str (String.toList "user data template failure: %s"), .str e]], none)
  | .ok usrData =>
    let tr :=
      if debug then
        tr ++ [.stdout "---- usr data: %v" [.str usr.hostname], .stdout "%v" [.str usrData],
          .stdout "----" []]
      else tr
    let req : DropletCreateRequest :=
      { Name := usr.hostname
        Region := region
        Size := size
        Image := distribution
        SSHKeys := [sshFingerprint]
        Tags := [dropletTag]
        UserData := usrData }
    if dryrun then
      (tr ++ [.log .info "Dry run: creating droplet for user" [], .stdout "%v" [.request req]],
        none)
    else
      let c := Call.DropletsCreate req
      let reply := P (callsOf tr) c
      let tr := tr ++ [.call c]
      let tr := reportReachingLimit reply.res tr
      match reply.err with
      | some e => (tr, some (.error e))
      | none => (tr, none)

/-- The function `createUserDroplets`: `createDroplet` for each user in turn; a panic ends the loop. -/
def createUserDroplets (dryrun debug : Bool) (tpl : user → Except Str Str) (P : Provider) :
    List user → List Event → List Event × Option Panic
  | [], tr => (tr, none)
  | usr :: rest, tr =>
    match createDroplet dryrun debug tpl P usr tr with
    | (tr, some p) => (tr, some p)
    | (tr, none) =>
      createUserDroplets dryrun debug tpl P rest
        (tr ++ [.log .info "created droplet for hostname: %s" [.str usr.hostname]])

/-! ## Key resolver -/

/-- The part of `http.Response` the tool reads: the status code and what
`ioutil.ReadAll(resp.Body)` returns (the data read, and the error if any). -/
structure HttpResponse where
  StatusCode : Int
  body : Str
  readErr : Option Str
  deriving DecidableEq, Repr

/-- What `http.Get` returns: the response pointer (`none` for nil) and the error. -/
structure GetResult where
  resp : Option HttpResponse
  err : Option Str
  deriving DecidableEq, Repr

/-- The function `loadGithubKeys`. `httpGet` is `http.Get`. After logging a request error the
function goes on to `defer resp.Body.Close()`, which dereferences `resp`. -/
def loadGithubKeys (httpGet : Str → GetResult) (name : Str) (tr : List Event) :
    List Event × Except Panic (List Str) :=
  let r := httpGet (String.toList "https://github.com/" ++ name ++ String.toList ".keys")
  let tr := match r.err with
    | some e => tr ++ [.log .error "cant load github keys for user %s err: %s" [.str name, .str e]]
    | none => tr
  match r.resp with
  | none => (tr, .error .nilDereference)
  | some resp =>
    if resp.StatusCode ≠ 200 then
      (tr ++ [.log .error "cant load github keys for user %s non 200 code" [.str name]], .ok [])
    else
      let tr := match resp.readErr with
        | some e =>
          tr ++ [.log .error "cant load github keys for user %s err: %s" [.str name, .str e]]
        | none => tr
      let keys := (split '\n' resp.body).foldl
        (fun keys k =>
          let k := trimSpace k
          if k ≠ [] then keys ++ [k] else keys)
        []
      (tr, .ok keys)

/-- The function `makeUser`. `parts[1]` panics when the line has no ";". -/
def makeUser (tbl : Char → Char) (httpGet : Str → GetResult) (line : Str) (tr : List Event) :
    List Event × Except Panic user :=
  let parts := split ';' line
  match parts with
  | p0 :: p1 :: _ =>
    let name := normalizeName tbl p0
    let hostname := dropletHostnameFromName name
    let key := trimSpace p1
    let Keys : List Str := if key.length > 0 then [key] else []
    match loadGithubKeys httpGet name tr with
    | (tr, .error p) => (tr, .error p)
    | (tr, .ok ghKeys) =>
      let Keys := if ghKeys.length > 0 then Keys ++ ghKeys else Keys
      let Keys := Keys ++ [defaultKey]
      (tr, .ok { name := name, hostname := hostname, Keys := Keys })
  | _ => (tr, .error .indexOutOfRange)

/-! ## The zone on the provider's side

The DNS provider is outside the repository; the definitions below say what "a call
succeeds and is applied to the zone" means for the statements about two passes. -/

/-- An ID that no record of the zone has. -/
def freshID (zone : List DomainRecord) : Int :=
  zone.foldr (fun r m => max r.ID m) 0 + 1

/-- A successful edit of the record `id`: its `Data` becomes `data`. -/
def editRec (id : Int) (data : Str) (r : DomainRecord) : DomainRecord :=
  if r.ID = id then { r with Data := data } else r

/-- The records of the zone `domain` after a successful call: a create adds, at the
end, a record with a new ID and the fields of the request; an edit sets the `Data`
of the record that has the ID; other calls leave the zone alone. -/
def applyCall (zone : List DomainRecord) : Call → List DomainRecord
  | .DomainsCreateRecord z req =>
    if z = domain then
      zone ++ [{ ID := freshID zone, Type_ := req.Type_, Name := req.Name, Data := req.Data,
                 TTL := req.TTL }]
    else zone
  | .DomainsEditRecord z id req =>
    if z = domain then zone.map (editRec id req.Data) else zone
  | .DropletsCreate _ => zone

/-- The zone after a sequence of successful calls. -/
def applyCalls (zone : List DomainRecord) (cs : List Call) : List DomainRecord :=
  cs.foldl applyCall zone

/-- The calls issued between a trace and a later state of it. -/
def issued (tr later : List Event) : List Call :=
  (callsOf later).drop (callsOf tr).length

/-! ## Auxiliary definitions for the statements -/

/-- A string that neither starts nor ends with white space. -/
def Trimmed (s : Str) : Prop :=
  s.dropWhile isSpace = s ∧ s.reverse.dropWhile isSpace = s.reverse

/-- What `normalizeName` does to one rune. -/
def normRune (tbl : Char → Char) (c : Char) : Char :=
  if toLowerRune tbl c = '.' then '-' else toLowerRune tbl c

/-- A lower-case table for the witnesses: it maps the Latin-1 letter "É" to "é" and
leaves every other rune alone. -/
def sampleTable (c : Char) : Char :=
  if c.toNat = 0xC9 then Char.ofNat 0xE9 else c

/-- The `CreateRecord` call of `createDomainRecord`. -/
def createCall (subdomain ip : Str) : Call :=
  .DomainsCreateRecord (String.toList "encero.xyz")
    { Type_ := ['A'], Name := subdomain, Data := ip, TTL := 30 }

/-- The `EditRecord` call of `updateRecord`. -/
def editCall (id : Int) (addr : Str) : Call :=
  .DomainsEditRecord domain id { Data := addr }

/-- The provider calls `updateRecord` decides on. -/
def updateCalls (subdomain : Str) (records : GoMap DomainRecord) (addr : Str) : List Call :=
  match records subdomain with
  | none => [createCall subdomain addr]
  | some re => if re.Data = addr then [] else [editCall re.ID addr]

/-- The labels the DNS pass synchronizes for a droplet, each with the droplet's
address: none for a droplet for which `PublicIPv4()` returns an error. -/
def labelsOf (d : Droplet) : List (Str × Str) :=
  match d.PublicIPv4 with
  | none => []
  | some addr =>
    [(trimSuffix d.Name dropletNameSuffix, addr),
     ('*' :: '.' :: trimSuffix d.Name dropletNameSuffix, addr)]

/-- A provider for the witnesses: every call succeeds, with quota left. -/
def okProvider : Provider := fun _ _ => { res := some { Remaining := 4000 }, err := none }

/-- A provider for the witnesses: every call fails, with little quota left. -/
def failingProvider : Provider :=
  fun _ _ => { res := some { Remaining := 100 }, err := some (String.toList "too many requests") }

/-- The calls of a DNS pass, as decided label by label. -/
def syncCalls (records : List DomainRecord) (ds : List Droplet) : List Call :=
  (ds.flatMap labelsOf).flatMap (fun p => updateCalls p.1 (recordMap records) p.2)

/-- What a successful call does to a record that is in the zone. -/
def stepRec (c : Call) (r : DomainRecord) : DomainRecord :=
  match c with
  | .DomainsEditRecord z id req => if z = domain then editRec id req.Data r else r
  | _ => r

/-- The record a successful call adds to the zone. -/
def newRecs (zone : List DomainRecord) (c : Call) : List DomainRecord :=
  match c with
  | .DomainsCreateRecord z req =>
    if z = domain then
      [{ ID := freshID zone, Type_ := req.Type_, Name := req.Name, Data := req.Data,
         TTL := req.TTL }]
    else []
  | _ => []

/-- A key source for the witnesses: the request fails, `http.Get` returns a nil
response and an error. -/
def unreachableGet : Str → GetResult :=
  fun _ => { resp := none, err := some (String.toList "dial tcp: no such host") }

/-- A key source for the witnesses: it answers 404. -/
def notFoundGet : Str → GetResult :=
  fun _ => { resp := some { StatusCode := 404, body := String.toList "Not Found", readErr := none },
             err := none }

/-- A key source for the witnesses: it answers 200 with two keys, the second one
being `defaultKey`. -/
def keysGet : Str → GetResult :=
  fun _ => { resp := some { StatusCode := 200,
                            body := String.toList "ssh-rsa AAAAB3Nza\n\n  " ++ defaultKey ++ ['\n'],
                            readErr := none },
             err := none }

/-- A template outcome for the witnesses: the rendered text is the hostname; the
user without keys cannot be rendered. -/
def sampleTemplate (usr : user) : Except Str Str :=
  if usr.Keys = [] then .error (String.toList "no keys") else .ok usr.hostname

/-! ## Lemmas on strings -/

theorem dropWhile_fix_iff (p : Char → Bool) (l : Str) :
    l.dropWhile p = l ↔ ∀ c, l.head? = some c → p c = false := by
  cases l with
  | nil => simp
  | cons a as =>
    cases hp : p a with
    | false => simp [List.dropWhile, hp]
    | true =>
      simp only [List.dropWhile, hp, List.head?_cons, Option.some.injEq, forall_eq']
      constructor
      · intro h
        have h1 := (List.dropWhile_suffix p (l := as)).length_le
        rw [h] at h1
        simp at h1
      · intro h
        simp at h

theorem trimSpace_of_trimmed {s : Str} (h : Trimmed s) : trimSpace s = s := by
  unfold trimSpace
  rw [h.1, h.2, List.reverse_reverse]

theorem trimmed_trimSpace (s : Str) : Trimmed (trimSpace s) := by
  unfold trimSpace Trimmed
  constructor
  · rw [dropWhile_fix_iff]
    intro c hc
    have hpre : ((s.dropWhile isSpace).reverse.dropWhile isSpace).reverse <+: s.dropWhile isSpace :=
      List.rdropWhile_prefix isSpace (s.dropWhile isSpace)
    obtain ⟨t, ht⟩ := hpre
    have h2 : (s.dropWhile isSpace).head? = some c := by
      rw [← ht]
      cases hl : ((s.dropWhile isSpace).reverse.dropWhile isSpace).reverse with
      | nil => rw [hl] at hc; simp at hc
      | cons a as => rw [hl] at hc; simpa using hc
    have h3 : (s.dropWhile isSpace).dropWhile isSpace = s.dropWhile isSpace :=
      List.dropWhile_idempotent isSpace s
    exact (dropWhile_fix_iff isSpace _).1 h3 c h2
  · rw [List.reverse_reverse]
    exact List.dropWhile_idempotent isSpace _

theorem trimmed_map {g : Char → Char} (hg : ∀ c, isSpace c = false → isSpace (g c) = false)
    {s : Str} (h : Trimmed s) : Trimmed (s.map g) := by
  have key : ∀ l : Str, l.dropWhile isSpace = l → (l.map g).dropWhile isSpace = l.map g := by
    intro l hl
    rw [dropWhile_fix_iff] at hl ⊢
    intro c hc
    cases l with
    | nil => simp at hc
    | cons a as =>
      simp only [List.map_cons, List.head?_cons, Option.some.injEq] at hc
      subst hc
      exact hg a (hl a rfl)
  refine ⟨key s h.1, ?_⟩
  rw [← List.map_reverse]
  exact key _ h.2

theorem toNat_ofNat_small (n : Nat) (h : n < 0xD800) : (Char.ofNat n).toNat = n := by
  have hv : n.isValidChar := Or.inl h
  simp only [Char.ofNat, hv, dif_pos, Char.ofNatAux, Char.toNat]
  rfl

theorem toLowerRune_ascii_idem (tbl : Char → Char) (c : Char) (h : c.toNat ≤ 0x7F) :
    toLowerRune tbl (toLowerRune tbl c) = toLowerRune tbl c := by
  unfold toLowerRune
  simp only [h, if_true]
  by_cases hu : 0x41 ≤ c.toNat ∧ c.toNat ≤ 0x5A
  · have h1 : (Char.ofNat (c.toNat + 0x20)).toNat = c.toNat + 0x20 :=
      toNat_ofNat_small _ (by omega)
    simp only [hu, and_self, if_true, h1]
    have h2 : c.toNat + 0x20 ≤ 0x7F := by omega
    have h3 : ¬ (0x41 ≤ c.toNat + 0x20 ∧ c.toNat + 0x20 ≤ 0x5A) := by omega
    simp only [h2, if_true, h3, if_false]
  · simp only [hu, if_false, h, if_true]

theorem toLowerRune_ascii_space (tbl : Char → Char) (c : Char) (h : c.toNat ≤ 0x7F)
    (hs : isSpace c = false) : isSpace (toLowerRune tbl c) = false := by
  unfold toLowerRune
  simp only [h, if_true]
  by_cases hu : 0x41 ≤ c.toNat ∧ c.toNat ≤ 0x5A
  · have h1 : (Char.ofNat (c.toNat + 0x20)).toNat = c.toNat + 0x20 :=
      toNat_ofNat_small _ (by omega)
    simp only [hu, and_self, if_true]
    unfold isSpace
    simp only [h1]
    simp
    omega
  · simp only [hu, if_false, hs]

theorem toLowerRune_idem {tbl : Char → Char}
    (hIdem : ∀ c : Char, 0x7F < c.toNat → toLowerRune tbl (tbl c) = tbl c) (c : Char) :
    toLowerRune tbl (toLowerRune tbl c) = toLowerRune tbl c := by
  by_cases h : c.toNat ≤ 0x7F
  · exact toLowerRune_ascii_idem tbl c h
  · have h1 : toLowerRune tbl c = tbl c := by simp [toLowerRune, h]
    rw [h1]
    exact hIdem c (by omega)

theorem toLowerRune_space {tbl : Char → Char}
    (hSpace : ∀ c : Char, 0x7F < c.toNat → isSpace c = false → isSpace (tbl c) = false)
    (c : Char) (hs : isSpace c = false) : isSpace (toLowerRune tbl c) = false := by
  by_cases h : c.toNat ≤ 0x7F
  · exact toLowerRune_ascii_space tbl c h hs
  · have h1 : toLowerRune tbl c = tbl c := by simp [toLowerRune, h]
    rw [h1]
    exact hSpace c (by omega) hs

theorem normalizeName_eq_map (tbl : Char → Char) (x : Str) :
    normalizeName tbl x = (trimSpace x).map (normRune tbl) := by
  simp [normalizeName, toLower, replaceAll, normRune, List.map_map, Function.comp_def]

theorem toLowerRune_dash (tbl : Char → Char) : toLowerRune tbl '-' = '-' := by
  rfl

theorem normRune_idem {tbl : Char → Char}
    (hIdem : ∀ c : Char, 0x7F < c.toNat → toLowerRune tbl (tbl c) = tbl c) (c : Char) :
    normRune tbl (normRune tbl c) = normRune tbl c := by
  unfold normRune
  by_cases h : toLowerRune tbl c = '.'
  · simp [h, toLowerRune_dash]
  · simp [h, toLowerRune_idem hIdem]

theorem normRune_space {tbl : Char → Char}
    (hSpace : ∀ c : Char, 0x7F < c.toNat → isSpace c = false → isSpace (tbl c) = false)
    (c : Char) (hs : isSpace c = false) : isSpace (normRune tbl c) = false := by
  unfold normRune
  by_cases h : toLowerRune tbl c = '.'
  · simp only [h, if_true]
    decide
  · simp only [h, if_false]
    exact toLowerRune_space hSpace c hs

theorem trimmed_normalizeName {tbl : Char → Char}
    (hSpace : ∀ c : Char, 0x7F < c.toNat → isSpace c = false → isSpace (tbl c) = false)
    (x : Str) : Trimmed (normalizeName tbl x) := by
  rw [normalizeName_eq_map]
  exact trimmed_map (normRune_space hSpace) (trimmed_trimSpace x)

theorem sampleTable_idem (c : Char) (_h : 0x7F < c.toNat) :
    toLowerRune sampleTable (sampleTable c) = sampleTable c := by
  unfold sampleTable
  by_cases h1 : c.toNat = 0xC9
  · simp only [h1, if_true]
    decide
  · simp only [h1, if_false]
    have h2 : ¬ c.toNat ≤ 0x7F := by omega
    simp [toLowerRune, h2, sampleTable, h1]

theorem sampleTable_space (c : Char) (_h : 0x7F < c.toNat) (hs : isSpace c = false) :
    isSpace (sampleTable c) = false := by
  unfold sampleTable
  by_cases h1 : c.toNat = 0xC9
  · simp only [h1, if_true]
    decide
  · simp only [h1, if_false, hs]

/-! ## Properties of the identity normalizer -/

/-- C6: `normalizeName` is idempotent: normalizing a normalized name gives it back,
for every input string.  The Unicode lower-case table of the Go library is a
parameter; it is used through two of its properties: the lower case of a non-ASCII
rune is itself in lower case, and is not white space unless the rune was. -/
theorem normalizeName_idempotent (tbl : Char → Char)
    (hIdem : ∀ c : Char, 0x7F < c.toNat → toLowerRune tbl (tbl c) = tbl c)
    (hSpace : ∀ c : Char, 0x7F < c.toNat → isSpace c = false → isSpace (tbl c) = false)
    (x : Str) :
    normalizeName tbl (normalizeName tbl x) = normalizeName tbl x := by
  have ht := trimSpace_of_trimmed (trimmed_normalizeName hSpace x)
  rw [normalizeName_eq_map tbl (normalizeName tbl x), ht, normalizeName_eq_map,
    List.map_map]
  apply List.map_congr_left
  intro c _
  exact normRune_idem hIdem c

theorem normalizeName_idempotent_witness :
    (∀ c : Char, 0x7F < c.toNat → toLowerRune sampleTable (sampleTable c) = sampleTable c) ∧
    (∀ c : Char, 0x7F < c.toNat → isSpace c = false → isSpace (sampleTable c) = false) ∧
    normalizeName sampleTable (normalizeName sampleTable (String.toList " Zoé.É.Smith\n")) =
      normalizeName sampleTable (String.toList " Zoé.É.Smith\n") ∧
    normalizeName sampleTable (String.toList " Zoé.É.Smith\n") = String.toList "zoé-é-smith" :=
  ⟨sampleTable_idem, sampleTable_space,
    normalizeName_idempotent sampleTable sampleTable_idem sampleTable_space _, by decide⟩

/-- C7: the result of `normalizeName` is canonical: it has no "." in it, it is equal
to its own lower-casing, and it neither starts nor ends with white space (trimming it
changes nothing); and `normalizeName "Alice.Smith "` is "alice-smith".  The Unicode
lower-case table is a parameter, as for idempotence. -/
theorem normalizeName_canonical (tbl : Char → Char)
    (hIdem : ∀ c : Char, 0x7F < c.toNat → toLowerRune tbl (tbl c) = tbl c)
    (hSpace : ∀ c : Char, 0x7F < c.toNat → isSpace c = false → isSpace (tbl c) = false)
    (x : Str) :
    '.' ∉ normalizeName tbl x ∧
    toLower tbl (normalizeName tbl x) = normalizeName tbl x ∧
    trimSpace (normalizeName tbl x) = normalizeName tbl x ∧
    (∀ c, (normalizeName tbl x).head? = some c → isSpace c = false) ∧
    (∀ c, (normalizeName tbl x).getLast? = some c → isSpace c = false) ∧
    normalizeName tbl (String.toList "Alice.Smith ") = String.toList "alice-smith" := by
  have htr := trimmed_normalizeName hSpace x
  refine ⟨?_, ?_, trimSpace_of_trimmed htr, (dropWhile_fix_iff _ _).1 htr.1, ?_, ?_⟩
  · rw [normalizeName_eq_map]
    intro hmem
    obtain ⟨c, _, hc⟩ := List.mem_map.1 hmem
    unfold normRune at hc
    by_cases h : toLowerRune tbl c = '.'
    · simp [h] at hc
    · simp only [h, if_false] at hc
  · rw [normalizeName_eq_map, toLower, List.map_map]
    apply List.map_congr_left
    intro c _
    simp only [Function.comp]
    unfold normRune
    by_cases h : toLowerRune tbl c = '.'
    · simp [h, toLowerRune_dash]
    · simp [h, toLowerRune_idem hIdem]
  · intro c hc
    have h2 := (dropWhile_fix_iff isSpace _).1 htr.2 c
    rw [List.head?_reverse] at h2
    exact h2 hc
  · rfl

theorem normalizeName_canonical_witness :
    (∀ c : Char, 0x7F < c.toNat → toLowerRune sampleTable (sampleTable c) = sampleTable c) ∧
    (∀ c : Char, 0x7F < c.toNat → isSpace c = false → isSpace (sampleTable c) = false) ∧
    '.' ∉ normalizeName sampleTable (String.toList "\tÉmile.Zola \n") ∧
    normalizeName sampleTable (String.toList "\tÉmile.Zola \n") = String.toList "émile-zola" :=
  ⟨sampleTable_idem, sampleTable_space,
    (normalizeName_canonical sampleTable sampleTable_idem sampleTable_space _).1, by decide⟩

/-! ## Properties of the DNS synchronizer -/

theorem callsOf_append (a b : List Event) : callsOf (a ++ b) = callsOf a ++ callsOf b := by
  simp [callsOf, List.filterMap_append]

theorem callsOf_nil : callsOf [] = [] := rfl

theorem callsOf_call (c : Call) (t : List Event) :
    callsOf (Event.call c :: t) = c :: callsOf t := rfl

theorem callsOf_log (lvl : Level) (f : String) (args : List Arg) (t : List Event) :
    callsOf (Event.log lvl f args :: t) = callsOf t := rfl

theorem callsOf_stdout (f : String) (args : List Arg) (t : List Event) :
    callsOf (Event.stdout f args :: t) = callsOf t := rfl

theorem callsOf_reportReachingLimit (res : Option Response) (tr : List Event) :
    callsOf (reportReachingLimit res tr) = callsOf tr := by
  unfold reportReachingLimit
  cases res with
  | none => rfl
  | some r =>
    by_cases h : r.Remaining < 200
    · simp [h, callsOf_append, callsOf_stdout, callsOf_nil]
    · simp [h]

theorem callsOf_updateRecord (P : Provider) (subdomain : Str) (records : GoMap DomainRecord)
    (addr : Str) (tr : List Event) :
    callsOf (updateRecord P subdomain records addr tr) =
      callsOf tr ++ updateCalls subdomain records addr := by
  unfold updateRecord updateCalls
  cases hr : records subdomain with
  | none =>
    simp only [createDomainRecord]
    cases (P (callsOf tr) (Call.DomainsCreateRecord (String.toList "encero.xyz")
        { Type_ := ['A'], Name := subdomain, Data := addr, TTL := 30 })).err <;>
      simp [callsOf_append, callsOf_reportReachingLimit, callsOf_call, callsOf_log, callsOf_nil, createCall]
  | some re =>
    by_cases hd : re.Data = addr
    · simp [hd, callsOf_append, callsOf_log, callsOf_nil]
    · simp only [hd, if_false]
      cases (P (callsOf tr) (Call.DomainsEditRecord domain re.ID { Data := addr })).err <;>
        simp [callsOf_append, callsOf_reportReachingLimit, callsOf_call, callsOf_log, callsOf_nil, editCall]

/-- C2: `updateRecord` issues exactly one of three outcomes, whatever the provider
answers: with no record for the label, one create-record call for an A record with
that label, that address and TTL 30, and no edit call; with a record whose `Data` is
the address, no provider call; otherwise one edit-record call for the ID of the
existing record with `Data` set to the new address, and no create call. -/
theorem updateRecord_outcomes (P : Provider) (label addr : Str)
    (records : GoMap DomainRecord) (tr : List Event) :
    (records label = none →
      callsOf (updateRecord P label records addr tr) =
        callsOf tr ++ [Call.DomainsCreateRecord (String.toList "encero.xyz")
          { Type_ := String.toList "A", Name := label, Data := addr, TTL := 30 }]) ∧
    (∀ re, records label = some re → re.Data = addr →
      callsOf (updateRecord P label records addr tr) = callsOf tr) ∧
    (∀ re, records label = some re → re.Data ≠ addr →
      callsOf (updateRecord P label records addr tr) =
        callsOf tr ++ [Call.DomainsEditRecord domain re.ID
          { Type_ := [], Name := [], Data := addr, TTL := 0 }]) := by
  refine ⟨?_, ?_, ?_⟩
  · intro h
    rw [callsOf_updateRecord]
    simp [updateCalls, h, createCall]
  · intro re h hd
    rw [callsOf_updateRecord]
    simp [updateCalls, h, hd]
  · intro re h hd
    rw [callsOf_updateRecord]
    simp [updateCalls, h, hd, editCall]

theorem updateRecord_outcomes_witness :
    callsOf (updateRecord failingProvider (String.toList "alice") (recordMap [])
        (String.toList "10.0.0.1") []) =
      [Call.DomainsCreateRecord (String.toList "encero.xyz")
        { Type_ := String.toList "A", Name := String.toList "alice",
          Data := String.toList "10.0.0.1", TTL := 30 }] ∧
    callsOf (updateRecord okProvider (String.toList "alice")
        (recordMap [⟨7, ['A'], String.toList "alice", String.toList "10.0.0.1", 30⟩])
        (String.toList "10.0.0.1") []) = [] ∧
    callsOf (updateRecord failingProvider (String.toList "alice")
        (recordMap [⟨7, ['A'], String.toList "alice", String.toList "10.0.0.1", 30⟩])
        (String.toList "10.0.0.2") []) =
      [Call.DomainsEditRecord domain 7
        { Type_ := [], Name := [], Data := String.toList "10.0.0.2", TTL := 0 }] :=
  ⟨(updateRecord_outcomes failingProvider _ _ (recordMap []) []).1 (by decide),
   (updateRecord_outcomes okProvider _ _ _ []).2.1
      ⟨7, ['A'], String.toList "alice", String.toList "10.0.0.1", 30⟩ (by decide) (by decide),
   (updateRecord_outcomes failingProvider _ _ _ []).2.2
      ⟨7, ['A'], String.toList "alice", String.toList "10.0.0.1", 30⟩ (by decide) (by decide)⟩

theorem recordMap_append (z : List DomainRecord) (r : DomainRecord) (l : Str) :
    recordMap (z ++ [r]) l = if l = r.Name then some r else recordMap z l := by
  simp [recordMap, List.foldl_append, GoMap.set]

theorem recordMap_nil (l : Str) : recordMap [] l = none := rfl

theorem recordMap_none_iff (z : List DomainRecord) (l : Str) :
    recordMap z l = none ↔ ∀ r ∈ z, r.Name ≠ l := by
  induction z using List.reverseRecOn with
  | nil => simp [recordMap_nil]
  | append_singleton z r ih =>
    rw [recordMap_append]
    by_cases h : l = r.Name
    · simp only [h, if_true]
      constructor
      · intro h1
        exact absurd h1 (by simp)
      · intro h1
        exact absurd rfl (h1 r (by simp))
    · simp only [h, if_false, ih, List.mem_append, List.mem_singleton]
      constructor
      · intro h1 x hx
        rcases hx with hx | hx
        · exact h1 x hx
        · subst hx
          exact fun e => h e.symm
      · intro h1 x hx
        exact h1 x (Or.inl hx)

theorem recordMap_some (z : List DomainRecord) (l : Str) (re : DomainRecord)
    (h : recordMap z l = some re) : re ∈ z ∧ re.Name = l := by
  induction z using List.reverseRecOn with
  | nil => simp [recordMap_nil] at h
  | append_singleton z r ih =>
    rw [recordMap_append] at h
    by_cases hl : l = r.Name
    · simp only [hl, if_true, Option.some.injEq] at h
      subst h
      exact ⟨by simp, hl.symm⟩
    · simp only [hl, if_false] at h
      exact ⟨List.mem_append_left _ (ih h).1, (ih h).2⟩

theorem recordMap_of_mem (z : List DomainRecord) (r : DomainRecord) (h : r ∈ z) :
    ∃ re, recordMap z r.Name = some re := by
  cases hm : recordMap z r.Name with
  | some re => exact ⟨re, rfl⟩
  | none => exact absurd rfl ((recordMap_none_iff z r.Name).1 hm r h)

theorem dnsSync_cons (P : Provider) (records : List DomainRecord) (d : Droplet)
    (ds : List Droplet) (tr : List Event) :
    dnsSync P records (d :: ds) tr = dnsSync P records ds (dnsSync P records [d] tr) := rfl

theorem dnsSync_append (P : Provider) (records : List DomainRecord) (ds1 ds2 : List Droplet)
    (tr : List Event) :
    dnsSync P records (ds1 ++ ds2) tr = dnsSync P records ds2 (dnsSync P records ds1 tr) := by
  simp [dnsSync, List.foldl_append]

theorem dnsSync_single_some (P : Provider) (records : List DomainRecord) (d : Droplet)
    (addr : Str) (h : d.PublicIPv4 = some addr) (tr : List Event) :
    dnsSync P records [d] tr =
      updateRecord P ('*' :: '.' :: trimSuffix d.Name ('.' :: domain)) (recordMap records) addr
        (updateRecord P (trimSuffix d.Name ('.' :: domain)) (recordMap records) addr tr) := by
  simp [dnsSync, h, dropletNameSuffix]

theorem dnsSync_single_none (P : Provider) (records : List DomainRecord) (d : Droplet)
    (h : d.PublicIPv4 = none) (tr : List Event) :
    callsOf (dnsSync P records [d] tr) = callsOf tr := by
  simp [dnsSync, h, callsOf_append, callsOf_log, callsOf_nil]

/-- The DNS pass droplet by droplet: the droplets are handled one after the other; a
droplet for which `PublicIPv4()` returns an error adds no provider call; for a
droplet for which it returns `addr`, and `label` its name minus the suffix
"." + domain, the pass runs `updateRecord` on `label` and then on "*." + `label`,
both with `addr`: when the zone has a record for neither, that is two create calls
(bare label, then wildcard label); when the record map has a record for both and the
data of each differs from `addr`, that is two edit calls, one per record ID (in
particular when the zone has records for both labels and all of them differ from
`addr`). -/
theorem dnsSync_per_droplet (P : Provider) (records : List DomainRecord)
    (before : List Droplet) (d : Droplet) (after : List Droplet) (tr : List Event) :
    dnsSync P records (before ++ d :: after) tr =
      dnsSync P records after (dnsSync P records [d] (dnsSync P records before tr)) ∧
    (d.PublicIPv4 = none → callsOf (dnsSync P records [d] tr) = callsOf tr) ∧
    (∀ addr label wildcard, d.PublicIPv4 = some addr →
      label = trimSuffix d.Name (String.toList "." ++ domain) →
      wildcard = String.toList "*." ++ label →
      dnsSync P records [d] tr =
        updateRecord P wildcard (recordMap records) addr
          (updateRecord P label (recordMap records) addr tr) ∧
      ((∀ r ∈ records, r.Name ≠ label ∧ r.Name ≠ wildcard) →
        callsOf (dnsSync P records [d] tr) = callsOf tr ++
          [Call.DomainsCreateRecord (String.toList "encero.xyz")
            { Type_ := String.toList "A", Name := label, Data := addr, TTL := 30 },
           Call.DomainsCreateRecord (String.toList "encero.xyz")
            { Type_ := String.toList "A", Name := wildcard, Data := addr, TTL := 30 }]) ∧
      (∀ r1 r2, recordMap records label = some r1 → recordMap records wildcard = some r2 →
        r1.Data ≠ addr → r2.Data ≠ addr →
        callsOf (dnsSync P records [d] tr) = callsOf tr ++
          [Call.DomainsEditRecord domain r1.ID { Data := addr },
           Call.DomainsEditRecord domain r2.ID { Data := addr }]) ∧
      ((∃ r ∈ records, r.Name = label) → (∃ r ∈ records, r.Name = wildcard) →
        (∀ r ∈ records, r.Name = label ∨ r.Name = wildcard → r.Data ≠ addr) →
        ∃ r1 ∈ records, ∃ r2 ∈ records, r1.Name = label ∧ r2.Name = wildcard ∧
          callsOf (dnsSync P records [d] tr) = callsOf tr ++
            [Call.DomainsEditRecord domain r1.ID { Data := addr },
             Call.DomainsEditRecord domain r2.ID { Data := addr }])) := by
  refine ⟨?_, fun h => dnsSync_single_none P records d h tr, ?_⟩
  · rw [dnsSync_append, dnsSync_cons]
  · intro addr label wildcard ha hl hw
    have hrun : dnsSync P records [d] tr =
        updateRecord P wildcard (recordMap records) addr
          (updateRecord P label (recordMap records) addr tr) := by
      rw [dnsSync_single_some P records d addr ha tr, hw, hl]
      rfl
    have hedit : ∀ r1 r2, recordMap records label = some r1 →
        recordMap records wildcard = some r2 → r1.Data ≠ addr → r2.Data ≠ addr →
        callsOf (dnsSync P records [d] tr) = callsOf tr ++
          [Call.DomainsEditRecord domain r1.ID { Data := addr },
           Call.DomainsEditRecord domain r2.ID { Data := addr }] := by
      intro r1 r2 h1 h2 hd1 hd2
      rw [hrun, callsOf_updateRecord, callsOf_updateRecord]
      simp [updateCalls, h1, h2, hd1, hd2, editCall]
    refine ⟨hrun, ?_, hedit, ?_⟩
    · intro hnone
      have h1 : recordMap records label = none :=
        (recordMap_none_iff records label).2 (fun r hr => (hnone r hr).1)
      have h2 : recordMap records wildcard = none :=
        (recordMap_none_iff records wildcard).2 (fun r hr => (hnone r hr).2)
      rw [hrun, callsOf_updateRecord, callsOf_updateRecord]
      simp [updateCalls, h1, h2, createCall]
    · intro hex1 hex2 hall
      obtain ⟨x1, hx1, hn1⟩ := hex1
      obtain ⟨x2, hx2, hn2⟩ := hex2
      obtain ⟨r1, hr1⟩ := recordMap_of_mem records x1 hx1
      obtain ⟨r2, hr2⟩ := recordMap_of_mem records x2 hx2
      rw [hn1] at hr1
      rw [hn2] at hr2
      have m1 := recordMap_some records label r1 hr1
      have m2 := recordMap_some records wildcard r2 hr2
      exact ⟨r1, m1.1, r2, m2.1, m1.2, m2.2,
        hedit r1 r2 hr1 hr2 (hall r1 m1.1 (Or.inl m1.2)) (hall r2 m2.1 (Or.inr m2.2))⟩

theorem dnsSync_per_droplet_witness :
    callsOf (dnsSync okProvider [] [⟨String.toList "bob.encero.xyz", none⟩] []) = [] ∧
    callsOf (dnsSync okProvider []
        [⟨String.toList "bob.encero.xyz", some (String.toList "10.0.0.5")⟩] []) =
      [Call.DomainsCreateRecord (String.toList "encero.xyz")
        { Type_ := String.toList "A", Name := String.toList "bob",
          Data := String.toList "10.0.0.5", TTL := 30 },
       Call.DomainsCreateRecord (String.toList "encero.xyz")
        { Type_ := String.toList "A", Name := String.toList "*.bob",
          Data := String.toList "10.0.0.5", TTL := 30 }] ∧
    callsOf (dnsSync failingProvider
        [⟨11, ['A'], String.toList "bob", String.toList "10.0.0.4", 30⟩,
         ⟨12, ['A'], String.toList "*.bob", String.toList "10.0.0.4", 30⟩]
        [⟨String.toList "bob.encero.xyz", some (String.toList "10.0.0.5")⟩] []) =
      [Call.DomainsEditRecord domain 11 { Data := String.toList "10.0.0.5" },
       Call.DomainsEditRecord domain 12 { Data := String.toList "10.0.0.5" }] :=
  ⟨(dnsSync_per_droplet okProvider [] [] ⟨String.toList "bob.encero.xyz", none⟩ [] []).2.1 rfl,
   ((dnsSync_per_droplet okProvider [] []
      ⟨String.toList "bob.encero.xyz", some (String.toList "10.0.0.5")⟩ [] []).2.2
      (String.toList "10.0.0.5") (String.toList "bob") (String.toList "*.bob")
      rfl (by decide) (by decide)).2.1 (by simp),
   ((dnsSync_per_droplet failingProvider
      [⟨11, ['A'], String.toList "bob", String.toList "10.0.0.4", 30⟩,
       ⟨12, ['A'], String.toList "*.bob", String.toList "10.0.0.4", 30⟩] []
      ⟨String.toList "bob.encero.xyz", some (String.toList "10.0.0.5")⟩ [] []).2.2
      (String.toList "10.0.0.5") (String.toList "bob") (String.toList "*.bob")
      rfl (by decide) (by decide)).2.2.1
      ⟨11, ['A'], String.toList "bob", String.toList "10.0.0.4", 30⟩
      ⟨12, ['A'], String.toList "*.bob", String.toList "10.0.0.4", 30⟩
      (by decide) (by decide) (by decide) (by decide)⟩

/-- C9: the failing input. A droplet that has networks but no public IPv4 (here only
a private one, as a droplet that is still starting up) is a droplet without a
public address; for it `PublicIPv4()` returns the empty string and a nil error, the
test `err != nil` of the pass does not skip it, and on an empty zone the pass issues
two create calls with empty `Data`, one for the label and one for the wildcard
label, instead of no call. A droplet with a nil `Networks` is skipped, and a droplet
with a public network gets the two create calls with its address. -/
theorem dnsSync_empty_address_creates :
    godoPublicIPv4 (some ⟨[⟨String.toList "10.114.0.2", String.toList "private"⟩]⟩) =
      some [] ∧
    issued [] (dnsSync okProvider []
      [⟨String.toList "bob.encero.xyz",
        godoPublicIPv4 (some ⟨[⟨String.toList "10.114.0.2", String.toList "private"⟩]⟩)⟩] []) =
      [Call.DomainsCreateRecord (String.toList "encero.xyz")
        { Type_ := String.toList "A", Name := String.toList "bob", Data := [], TTL := 30 },
       Call.DomainsCreateRecord (String.toList "encero.xyz")
        { Type_ := String.toList "A", Name := String.toList "*.bob", Data := [], TTL := 30 }] ∧
    issued [] (dnsSync okProvider []
      [⟨String.toList "bob.encero.xyz", godoPublicIPv4 (some ⟨[]⟩)⟩] []) =
      [Call.DomainsCreateRecord (String.toList "encero.xyz")
        { Type_ := String.toList "A", Name := String.toList "bob", Data := [], TTL := 30 },
       Call.DomainsCreateRecord (String.toList "encero.xyz")
        { Type_ := String.toList "A", Name := String.toList "*.bob", Data := [], TTL := 30 }] ∧
    issued [] (dnsSync okProvider []
      [⟨String.toList "bob.encero.xyz", godoPublicIPv4 none⟩] []) = [] ∧
    issued [] (dnsSync okProvider []
      [⟨String.toList "bob.encero.xyz",
        godoPublicIPv4 (some ⟨[⟨String.toList "10.114.0.2", String.toList "private"⟩,
          ⟨String.toList "164.90.1.7", String.toList "public"⟩]⟩)⟩] []) =
      [Call.DomainsCreateRecord (String.toList "encero.xyz")
        { Type_ := String.toList "A", Name := String.toList "bob",
          Data := String.toList "164.90.1.7", TTL := 30 },
       Call.DomainsCreateRecord (String.toList "encero.xyz")
        { Type_ := String.toList "A", Name := String.toList "*.bob",
          Data := String.toList "164.90.1.7", TTL := 30 }] := by
  refine ⟨?_, ?_, ?_, ?_, ?_⟩ <;> decide

/-- C3, as stated, fails: two droplets of the same name with different addresses and
an empty zone. The first pass creates four records; on the zone it leaves, the
second pass issues two edit calls. -/
theorem dnsSync_second_pass_counterexample :
    issued [] (dnsSync okProvider
      (applyCalls []
        (issued [] (dnsSync okProvider []
          [⟨String.toList "alice.encero.xyz", some (String.toList "10.0.0.1")⟩,
           ⟨String.toList "alice.encero.xyz", some (String.toList "10.0.0.2")⟩] [])))
      [⟨String.toList "alice.encero.xyz", some (String.toList "10.0.0.1")⟩,
       ⟨String.toList "alice.encero.xyz", some (String.toList "10.0.0.2")⟩] []) =
      [Call.DomainsEditRecord domain 3 { Data := String.toList "10.0.0.1" },
       Call.DomainsEditRecord domain 4 { Data := String.toList "10.0.0.1" }] ∧
    applyCalls []
      (issued [] (dnsSync okProvider []
        [⟨String.toList "alice.encero.xyz", some (String.toList "10.0.0.1")⟩,
         ⟨String.toList "alice.encero.xyz", some (String.toList "10.0.0.2")⟩] [])) =
      [⟨1, ['A'], String.toList "alice", String.toList "10.0.0.1", 30⟩,
       ⟨2, ['A'], String.toList "*.alice", String.toList "10.0.0.1", 30⟩,
       ⟨3, ['A'], String.toList "alice", String.toList "10.0.0.2", 30⟩,
       ⟨4, ['A'], String.toList "*.alice", String.toList "10.0.0.2", 30⟩] := by
  constructor <;> decide

theorem callsOf_dnsSync (P : Provider) (records : List DomainRecord) (ds : List Droplet)
    (tr : List Event) :
    callsOf (dnsSync P records ds tr) = callsOf tr ++ syncCalls records ds := by
  induction ds generalizing tr with
  | nil => simp [dnsSync, syncCalls]
  | cons d ds ih =>
    rw [dnsSync_cons, ih]
    have hs : syncCalls records (d :: ds) =
        (labelsOf d).flatMap (fun p => updateCalls p.1 (recordMap records) p.2) ++
          syncCalls records ds := by
      simp [syncCalls, List.flatMap_append]
    rw [hs, ← List.append_assoc]
    congr 1
    cases h : d.PublicIPv4 with
    | none =>
      rw [dnsSync_single_none P records d h]
      simp [labelsOf, h]
    | some addr =>
      rw [dnsSync_single_some P records d addr h, callsOf_updateRecord, callsOf_updateRecord]
      simp [labelsOf, h, dropletNameSuffix]

theorem issued_of_eq (tr later : List Event) (X : List Call)
    (h : callsOf later = callsOf tr ++ X) : issued tr later = X := by
  simp [issued, h]

theorem stepRec_ID (c : Call) (r : DomainRecord) : (stepRec c r).ID = r.ID := by
  cases c <;> simp only [stepRec]
  split
  · unfold editRec
    split <;> rfl
  · rfl

theorem stepRec_Name (c : Call) (r : DomainRecord) : (stepRec c r).Name = r.Name := by
  cases c <;> simp only [stepRec]
  split
  · unfold editRec
    split <;> rfl
  · rfl

theorem applyCall_eq (zone : List DomainRecord) (c : Call) :
    applyCall zone c = zone.map (stepRec c) ++ newRecs zone c := by
  cases c with
  | DomainsCreateRecord z req =>
    have h : zone.map (stepRec (Call.DomainsCreateRecord z req)) = zone := by
      conv_rhs => rw [← List.map_id zone]
      apply List.map_congr_left
      intro r _
      simp [stepRec]
    rw [h]
    by_cases hz : z = domain <;> simp [applyCall, newRecs, hz]
  | DomainsEditRecord z id req =>
    by_cases hz : z = domain
    · simp only [applyCall, newRecs, hz, if_true, List.append_nil]
      apply List.map_congr_left
      intro r _
      simp [stepRec]
    · simp only [applyCall, newRecs, hz, if_false, List.append_nil]
      conv_lhs => rw [← List.map_id zone]
      apply List.map_congr_left
      intro r _
      simp [stepRec, hz]
  | DropletsCreate req =>
    simp only [applyCall, newRecs, List.append_nil]
    conv_lhs => rw [← List.map_id zone]
    apply List.map_congr_left
    intro r _
    simp [stepRec]

theorem applyCalls_cons (zone : List DomainRecord) (c : Call) (cs : List Call) :
    applyCalls zone (c :: cs) = applyCalls (applyCall zone c) cs := rfl

theorem le_freshID (zone : List DomainRecord) (r : DomainRecord) (h : r ∈ zone) :
    r.ID < freshID zone := by
  unfold freshID
  induction zone with
  | nil => simp at h
  | cons a as ih =>
    simp only [List.foldr_cons]
    rcases List.mem_cons.1 h with h1 | h1
    · subst h1
      have := le_max_left r.ID (List.foldr (fun r m => max r.ID m) 0 as)
      omega
    · have := ih h1
      have := le_max_right a.ID (List.foldr (fun r m => max r.ID m) 0 as)
      omega

theorem recordMap_map (f : DomainRecord → DomainRecord) (hf : ∀ r, (f r).Name = r.Name)
    (zone : List DomainRecord) (l : Str) :
    recordMap (zone.map f) l = (recordMap zone l).map f := by
  induction zone using List.reverseRecOn with
  | nil => simp [recordMap_nil]
  | append_singleton z r ih =>
    rw [List.map_append, List.map_singleton, recordMap_append, recordMap_append, ih, hf]
    by_cases h : l = r.Name <;> simp [h]

theorem recordMap_applyCall (zone : List DomainRecord) (c : Call) (l : Str)
    (hc : ∀ z req, c = Call.DomainsCreateRecord z req → req.Name ≠ l) :
    recordMap (applyCall zone c) l = (recordMap zone l).map (stepRec c) := by
  rw [applyCall_eq]
  have hm := recordMap_map (stepRec c) (stepRec_Name c) zone l
  cases c with
  | DomainsCreateRecord z req =>
    by_cases hz : z = domain
    · have hne : ¬ l = req.Name := fun e => hc z req rfl e.symm
      simp only [newRecs, hz, if_true]
      rw [recordMap_append, if_neg hne]
      simpa [hz] using hm
    · simpa [newRecs, hz] using hm
  | DomainsEditRecord z id req => simpa [newRecs] using hm
  | DropletsCreate req => simpa [newRecs] using hm

theorem recordMap_applyCalls (l : Str) (cs : List Call) :
    ∀ zone : List DomainRecord,
      (∀ z req, Call.DomainsCreateRecord z req ∈ cs → req.Name ≠ l) →
      recordMap (applyCalls zone cs) l =
        (recordMap zone l).map (fun r => cs.foldl (fun r c => stepRec c r) r) := by
  induction cs with
  | nil =>
    intro zone _
    simp [applyCalls]
  | cons c cs ih =>
    intro zone h
    rw [applyCalls_cons, ih (applyCall zone c) (fun z req hm => h z req (List.mem_cons_of_mem _ hm)),
      recordMap_applyCall zone c l (fun z req hc => h z req (by rw [hc]; exact List.mem_cons_self _ _)),
      Option.map_map]
    rfl

theorem stepRecs_Data (a : Str) (cs : List Call) :
    ∀ r : DomainRecord,
      (∀ z id req, Call.DomainsEditRecord z id req ∈ cs → id = r.ID → req.Data = a) →
      (r.Data = a ∨ ∃ req, Call.DomainsEditRecord domain r.ID req ∈ cs) →
      (cs.foldl (fun r c => stepRec c r) r).Data = a := by
  induction cs with
  | nil =>
    intro r _ h2
    rcases h2 with h2 | ⟨req, h2⟩
    · exact h2
    · simp at h2
  | cons c cs ih =>
    intro r h1 h2
    rw [List.foldl_cons]
    apply ih
    · intro z id req hm hid
      rw [stepRec_ID] at hid
      exact h1 z id req (List.mem_cons_of_mem _ hm) hid
    · rw [stepRec_ID]
      have hstep : r.Data = a → (stepRec c r).Data = a := by
        intro hd
        cases c with
        | DomainsCreateRecord z req => exact hd
        | DropletsCreate req => exact hd
        | DomainsEditRecord z id req =>
          simp only [stepRec]
          by_cases hz : z = domain
          · simp only [hz, if_true, editRec]
            by_cases hi : r.ID = id
            · simp only [hi, if_true]
              exact h1 z id req (List.mem_cons_self _ _) hi.symm
            · simp only [hi, if_false]
              exact hd
          · simp only [hz, if_false]
            exact hd
      rcases h2 with h2 | ⟨req, h2⟩
      · exact Or.inl (hstep h2)
      · rcases List.mem_cons.1 h2 with h3 | h3
        · left
          subst h3
          simp only [stepRec, if_true, editRec]
          exact h1 domain r.ID req (List.mem_cons_self _ _) rfl
        · exact Or.inr ⟨req, h3⟩

theorem mem_applyCall_of_mem (zone : List DomainRecord) (c : Call) (r : DomainRecord)
    (h : r ∈ zone) : stepRec c r ∈ applyCall zone c := by
  rw [applyCall_eq]
  exact List.mem_append_left _ (List.mem_map_of_mem _ h)

theorem exists_name_applyCalls (l : Str) (cs : List Call) :
    ∀ zone : List DomainRecord, (∃ r ∈ zone, r.Name = l) →
      ∃ r ∈ applyCalls zone cs, r.Name = l := by
  induction cs with
  | nil =>
    intro zone h
    exact h
  | cons c cs ih =>
    intro zone h
    obtain ⟨r, hr, hn⟩ := h
    rw [applyCalls_cons]
    exact ih _ ⟨stepRec c r, mem_applyCall_of_mem zone c r hr, by rw [stepRec_Name, hn]⟩

theorem exists_created_applyCalls (req : DomainRecordEditRequest) (cs : List Call) :
    ∀ zone : List DomainRecord, Call.DomainsCreateRecord domain req ∈ cs →
      ∃ r ∈ applyCalls zone cs, r.Name = req.Name := by
  induction cs with
  | nil =>
    intro zone h
    simp at h
  | cons c cs ih =>
    intro zone h
    rw [applyCalls_cons]
    rcases List.mem_cons.1 h with h1 | h1
    · apply exists_name_applyCalls
      subst h1
      refine ⟨{ ID := freshID zone, Type_ := req.Type_, Name := req.Name, Data := req.Data,
                TTL := req.TTL }, ?_, rfl⟩
      simp [applyCall]
    · exact ih _ h1

theorem mem_applyCalls (S : List Int) (cs : List Call) :
    ∀ zone : List DomainRecord,
      (∀ z id req, Call.DomainsEditRecord z id req ∈ cs → id ∈ S) →
      (∀ id ∈ S, id ∈ zone.map DomainRecord.ID) →
      ∀ r ∈ applyCalls zone cs,
        (∃ r0 ∈ zone, r.Name = r0.Name ∧ r.ID = r0.ID ∧ (r0.ID ∉ S → r.Data = r0.Data)) ∨
        (∃ z req, Call.DomainsCreateRecord z req ∈ cs ∧ r.Name = req.Name ∧
          r.Data = req.Data) := by
  induction cs with
  | nil =>
    intro zone _ _ r hr
    exact Or.inl ⟨r, hr, rfl, rfl, fun _ => rfl⟩
  | cons c cs ih =>
    intro zone hE hS r hr
    rw [applyCalls_cons] at hr
    have hS2 : ∀ id ∈ S, id ∈ (applyCall zone c).map DomainRecord.ID := by
      intro id hid
      obtain ⟨r0, hr0, he⟩ := List.mem_map.1 (hS id hid)
      exact List.mem_map.2 ⟨stepRec c r0, mem_applyCall_of_mem zone c r0 hr0, by
        rw [stepRec_ID, he]⟩
    rcases ih (applyCall zone c) (fun z id req hm => hE z id req (List.mem_cons_of_mem _ hm))
        hS2 r hr with ⟨r0, hr0, hn, hi, hd⟩ | ⟨z, req, hm, hn, hd⟩
    · rw [applyCall_eq] at hr0
      rcases List.mem_append.1 hr0 with h0 | h0
      · obtain ⟨r00, hr00, he⟩ := List.mem_map.1 h0
        subst he
        left
        refine ⟨r00, hr00, by rw [hn, stepRec_Name], by rw [hi, stepRec_ID], ?_⟩
        intro hnot
        rw [hd (by rw [stepRec_ID]; exact hnot)]
        cases c with
        | DomainsCreateRecord z req => rfl
        | DropletsCreate req => rfl
        | DomainsEditRecord z id req =>
          simp only [stepRec]
          by_cases hz : z = domain
          · simp only [hz, if_true, editRec]
            by_cases hi2 : r00.ID = id
            · exact absurd (hi2 ▸ hE z id req (List.mem_cons_self _ _)) hnot
            · simp only [hi2, if_false]
          · simp only [hz, if_false]
      · right
        cases c with
        | DomainsEditRecord z id req => simp [newRecs] at h0
        | DropletsCreate req => simp [newRecs] at h0
        | DomainsCreateRecord z req =>
          by_cases hz : z = domain
          · simp only [newRecs, hz, if_true, List.mem_singleton] at h0
            have hfresh : r0.ID ∉ S := by
              intro hin
              obtain ⟨x, hx, hxe⟩ := List.mem_map.1 (hS _ hin)
              have := le_freshID zone x hx
              rw [hxe, h0] at this
              simp at this
            refine ⟨z, req, List.mem_cons_self _ _, ?_, ?_⟩
            · rw [hn, h0]
            · rw [hd hfresh, h0]
          · simp [newRecs, hz] at h0
    · exact Or.inr ⟨z, req, List.mem_cons_of_mem _ hm, hn, hd⟩

theorem create_mem_updateCalls {z : Str} {req : DomainRecordEditRequest} {l a : Str}
    {m : GoMap DomainRecord} (h : Call.DomainsCreateRecord z req ∈ updateCalls l m a) :
    z = domain ∧ req.Name = l ∧ req.Data = a ∧ m l = none := by
  unfold updateCalls at h
  cases hm : m l with
  | none =>
    simp only [hm, List.mem_singleton, createCall, Call.DomainsCreateRecord.injEq] at h
    obtain ⟨hz, hreq⟩ := h
    subst hreq
    exact ⟨by rw [hz]; rfl, rfl, rfl, rfl⟩
  | some re =>
    simp only [hm] at h
    by_cases hd : re.Data = a
    · simp [hd] at h
    · simp [hd, editCall] at h

theorem edit_mem_updateCalls {z : Str} {id : Int} {req : DomainRecordEditRequest} {l a : Str}
    {m : GoMap DomainRecord} (h : Call.DomainsEditRecord z id req ∈ updateCalls l m a) :
    ∃ re, m l = some re ∧ id = re.ID ∧ req.Data = a ∧ re.Data ≠ a := by
  unfold updateCalls at h
  cases hm : m l with
  | none => simp [hm, createCall] at h
  | some re =>
    simp only [hm] at h
    by_cases hd : re.Data = a
    · simp [hd] at h
    · simp only [hd, if_false, List.mem_singleton, editCall, Call.DomainsEditRecord.injEq] at h
      obtain ⟨_, hid, hreq⟩ := h
      subst hreq
      exact ⟨re, rfl, hid, rfl, hd⟩

theorem mem_labelsOf {d : Droplet} {p : Str × Str} (h : p ∈ labelsOf d) :
    d.PublicIPv4 = some p.2 ∧
      (p.1 = trimSuffix d.Name (String.toList "." ++ domain) ∨
       p.1 = String.toList "*." ++ trimSuffix d.Name (String.toList "." ++ domain)) := by
  unfold labelsOf at h
  cases ha : d.PublicIPv4 with
  | none => simp [ha] at h
  | some addr =>
    simp only [ha, List.mem_cons, List.mem_singleton, List.not_mem_nil, or_false] at h
    rcases h with h | h
    · subst h
      exact ⟨rfl, Or.inl rfl⟩
    · subst h
      exact ⟨rfl, Or.inr rfl⟩

/-- After a pass whose calls are all applied, every label of the pass has, in the
record map of the new zone, a record with the address of the pass. -/
theorem recordMap_after_sync (records : List DomainRecord) (ds : List Droplet)
    (hIDs : (records.map DomainRecord.ID).Nodup)
    (hFun : ∀ p ∈ ds.flatMap labelsOf, ∀ q ∈ ds.flatMap labelsOf, p.1 = q.1 → p.2 = q.2)
    (p : Str × Str) (hp : p ∈ ds.flatMap labelsOf) :
    ∃ re, recordMap (applyCalls records (syncCalls records ds)) p.1 = some re ∧
      re.Data = p.2 := by
  have hfrom : ∀ c ∈ syncCalls records ds,
      ∃ q ∈ ds.flatMap labelsOf, c ∈ updateCalls q.1 (recordMap records) q.2 := by
    intro c hc
    exact List.mem_flatMap.1 hc
  have hto : ∀ c ∈ updateCalls p.1 (recordMap records) p.2, c ∈ syncCalls records ds :=
    fun c hc => List.mem_flatMap.2 ⟨p, hp, hc⟩
  have hEdits : ∀ z id req, Call.DomainsEditRecord z id req ∈ syncCalls records ds →
      id ∈ records.map DomainRecord.ID := by
    intro z id req hc
    obtain ⟨q, _, hq⟩ := hfrom _ hc
    obtain ⟨re, hre, hid, _, _⟩ := edit_mem_updateCalls hq
    exact List.mem_map.2 ⟨re, (recordMap_some _ _ _ hre).1, hid.symm⟩
  cases hm : recordMap records p.1 with
  | none =>
    have hc : Call.DomainsCreateRecord domain
        { Type_ := ['A'], Name := p.1, Data := p.2, TTL := 30 } ∈ syncCalls records ds := by
      apply hto
      simp only [updateCalls, hm, List.mem_singleton, createCall]
      rfl
    obtain ⟨r, hr, hn⟩ := exists_created_applyCalls _ _ records hc
    obtain ⟨re, hre⟩ := recordMap_of_mem _ r hr
    rw [hn] at hre
    refine ⟨re, hre, ?_⟩
    obtain ⟨hmem, hname⟩ := recordMap_some _ _ _ hre
    rcases mem_applyCalls (records.map DomainRecord.ID) (syncCalls records ds) records hEdits
        (fun _ h => h) re hmem with ⟨r0, hr0, hn0, _, _⟩ | ⟨z, req, hcr, hn1, hd1⟩
    · exact absurd (hn0.symm.trans hname) ((recordMap_none_iff records p.1).1 hm r0 hr0)
    · obtain ⟨q, hq, hqc⟩ := hfrom _ hcr
      obtain ⟨_, hqn, hqd, _⟩ := create_mem_updateCalls hqc
      have : q.1 = p.1 := by rw [← hqn, ← hn1, hname]
      rw [hd1, hqd]
      exact hFun q hq p hp this
  | some re =>
    obtain ⟨hmem, hname⟩ := recordMap_some _ _ _ hm
    have hNoCreate : ∀ z req, Call.DomainsCreateRecord z req ∈ syncCalls records ds →
        req.Name ≠ p.1 := by
      intro z req hc hn
      obtain ⟨q, _, hqc⟩ := hfrom _ hc
      obtain ⟨_, hqn, _, hqm⟩ := create_mem_updateCalls hqc
      rw [hqn.symm.trans hn, hm] at hqm
      exact Option.noConfusion hqm
    rw [recordMap_applyCalls p.1 _ records hNoCreate, hm]
    refine ⟨_, rfl, ?_⟩
    apply stepRecs_Data
    · intro z id req hc hid
      obtain ⟨q, hq, hqc⟩ := hfrom _ hc
      obtain ⟨re2, hre2, hid2, hd2, _⟩ := edit_mem_updateCalls hqc
      obtain ⟨hmem2, hname2⟩ := recordMap_some _ _ _ hre2
      have heq : re2 = re :=
        List.inj_on_of_nodup_map hIDs hmem2 hmem (by rw [← hid2, hid])
      rw [hd2]
      exact hFun q hq p hp (by rw [← hname2, heq, hname])
    · by_cases hd : re.Data = p.2
      · exact Or.inl hd
      · right
        refine ⟨{ Data := p.2 }, hto _ ?_⟩
        simp [updateCalls, hm, hd, editCall]

/-- C3, amended: the DNS pass is idempotent when the record IDs of the zone are
pairwise distinct and no two droplets that the pass synchronizes share a label (the
bare label of one being the bare or the wildcard label of the other) while
`PublicIPv4()` returns different strings for them. The droplets the pass
synchronizes are those for which `PublicIPv4()` returns no error; a droplet with
networks but no public IPv4 is one of them, its address being the empty string.
Then, after a first pass whose create and edit calls are all applied to the zone, a
second pass on the same droplets and the new zone records issues no provider call,
whatever the provider answers in either pass. -/
theorem dnsSync_second_pass (P1 P2 : Provider) (records : List DomainRecord)
    (ds : List Droplet) (tr1 tr2 : List Event)
    (hIDs : (records.map DomainRecord.ID).Nodup)
    (hLabels : ∀ d1 ∈ ds, ∀ d2 ∈ ds, d1.PublicIPv4 ≠ none → d2.PublicIPv4 ≠ none →
      (trimSuffix d1.Name (String.toList "." ++ domain) =
          trimSuffix d2.Name (String.toList "." ++ domain) ∨
       trimSuffix d1.Name (String.toList "." ++ domain) =
          String.toList "*." ++ trimSuffix d2.Name (String.toList "." ++ domain)) →
      d1.PublicIPv4 = d2.PublicIPv4) :
    issued tr2
      (dnsSync P2 (applyCalls records (issued tr1 (dnsSync P1 records ds tr1))) ds tr2) = [] := by
  have hFun : ∀ p ∈ ds.flatMap labelsOf, ∀ q ∈ ds.flatMap labelsOf, p.1 = q.1 → p.2 = q.2 := by
    intro p hp q hq hpq
    obtain ⟨d1, hd1, hp1⟩ := List.mem_flatMap.1 hp
    obtain ⟨d2, hd2, hq2⟩ := List.mem_flatMap.1 hq
    obtain ⟨ha1, hl1⟩ := mem_labelsOf hp1
    obtain ⟨ha2, hl2⟩ := mem_labelsOf hq2
    have hn1 : d1.PublicIPv4 ≠ none := by rw [ha1]; exact Option.some_ne_none _
    have hn2 : d2.PublicIPv4 ≠ none := by rw [ha2]; exact Option.some_ne_none _
    have key : d1.PublicIPv4 = d2.PublicIPv4 := by
      rcases hl1 with h1 | h1 <;> rcases hl2 with h2 | h2
      · exact hLabels d1 hd1 d2 hd2 hn1 hn2 (Or.inl (by rw [← h1, ← h2, hpq]))
      · exact hLabels d1 hd1 d2 hd2 hn1 hn2 (Or.inr (by rw [← h1, ← h2, hpq]))
      · exact (hLabels d2 hd2 d1 hd1 hn2 hn1 (Or.inr (by rw [← h1, ← h2, hpq]))).symm
      · refine hLabels d1 hd1 d2 hd2 hn1 hn2 (Or.inl ?_)
        rw [h1, h2] at hpq
        exact List.append_cancel_left hpq
    rw [ha1, ha2] at key
    exact Option.some.inj key
  rw [issued_of_eq tr1 _ _ (callsOf_dnsSync P1 records ds tr1)]
  apply issued_of_eq
  rw [callsOf_dnsSync]
  congr 1
  apply List.eq_nil_iff_forall_not_mem.2
  intro c hc
  obtain ⟨p, hp, hpc⟩ := List.mem_flatMap.1 hc
  obtain ⟨re, hre, hdata⟩ := recordMap_after_sync records ds hIDs hFun p hp
  simp [updateCalls, hre, hdata] at hpc

theorem dnsSync_second_pass_witness :
    issued [] (dnsSync okProvider
      [⟨5, ['A'], String.toList "alice", String.toList "10.0.0.9", 30⟩]
      [⟨String.toList "alice.encero.xyz", some (String.toList "10.0.0.1")⟩,
       ⟨String.toList "carol.encero.xyz", none⟩,
       ⟨String.toList "bob.encero.xyz", some (String.toList "10.0.0.2")⟩,
       ⟨String.toList "dave.encero.xyz", godoPublicIPv4 (some ⟨[]⟩)⟩] []) =
      [Call.DomainsEditRecord domain 5 { Data := String.toList "10.0.0.1" },
       Call.DomainsCreateRecord (String.toList "encero.xyz")
        { Type_ := ['A'], Name := String.toList "*.alice", Data := String.toList "10.0.0.1",
          TTL := 30 },
       Call.DomainsCreateRecord (String.toList "encero.xyz")
        { Type_ := ['A'], Name := String.toList "bob", Data := String.toList "10.0.0.2",
          TTL := 30 },
       Call.DomainsCreateRecord (String.toList "encero.xyz")
        { Type_ := ['A'], Name := String.toList "*.bob", Data := String.toList "10.0.0.2",
          TTL := 30 },
       Call.DomainsCreateRecord (String.toList "encero.xyz")
        { Type_ := ['A'], Name := String.toList "dave", Data := [], TTL := 30 },
       Call.DomainsCreateRecord (String.toList "encero.xyz")
        { Type_ := ['A'], Name := String.toList "*.dave", Data := [], TTL := 30 }] ∧
    issued [] (dnsSync failingProvider
      (applyCalls [⟨5, ['A'], String.toList "alice", String.toList "10.0.0.9", 30⟩]
        (issued [] (dnsSync okProvider
          [⟨5, ['A'], String.toList "alice", String.toList "10.0.0.9", 30⟩]
          [⟨String.toList "alice.encero.xyz", some (String.toList "10.0.0.1")⟩,
           ⟨String.toList "carol.encero.xyz", none⟩,
           ⟨String.toList "bob.encero.xyz", some (String.toList "10.0.0.2")⟩,
           ⟨String.toList "dave.encero.xyz", godoPublicIPv4 (some ⟨[]⟩)⟩] [])))
      [⟨String.toList "alice.encero.xyz", some (String.toList "10.0.0.1")⟩,
       ⟨String.toList "carol.encero.xyz", none⟩,
       ⟨String.toList "bob.encero.xyz", some (String.toList "10.0.0.2")⟩,
       ⟨String.toList "dave.encero.xyz", godoPublicIPv4 (some ⟨[]⟩)⟩] []) = [] :=
  ⟨by decide,
   dnsSync_second_pass okProvider failingProvider _ _ [] [] (by decide) (by decide)⟩

/-- The condition on the labels has to range over every droplet the pass
synchronizes: with a droplet of address 10.0.0.1 and a droplet of the same name for
which `PublicIPv4()` returns the empty string, on an empty zone, the second pass
issues two edit calls. -/
theorem dnsSync_second_pass_empty_address :
    issued [] (dnsSync okProvider
      (applyCalls []
        (issued [] (dnsSync okProvider []
          [⟨String.toList "alice.encero.xyz", some (String.toList "10.0.0.1")⟩,
           ⟨String.toList "alice.encero.xyz", godoPublicIPv4 (some ⟨[]⟩)⟩] [])))
      [⟨String.toList "alice.encero.xyz", some (String.toList "10.0.0.1")⟩,
       ⟨String.toList "alice.encero.xyz", godoPublicIPv4 (some ⟨[]⟩)⟩] []) =
      [Call.DomainsEditRecord domain 3 { Data := String.toList "10.0.0.1" },
       Call.DomainsEditRecord domain 4 { Data := String.toList "10.0.0.1" }] := by
  decide

/-! ## Properties of the diff engine -/

theorem dropMap_lookup (cur : List Droplet) (k : Str) :
    ∀ m : GoMap Droplet,
      (cur.foldl (fun m d => m.set d.Name d) m k = none ↔
        m k = none ∧ k ∉ cur.map Droplet.Name) := by
  induction cur with
  | nil => intro m; simp
  | cons d ds ih =>
    intro m
    rw [List.foldl_cons, ih]
    by_cases h : k = d.Name
    · simp [GoMap.set, h]
    · simp [GoMap.set, h]

theorem missing_fold (f : Str → Option Droplet) (want : List user) :
    ∀ acc : List user,
      want.foldl (fun missing usr =>
        match f usr.hostname with
        | some _ => missing
        | none => missing ++ [usr]) acc =
      acc ++ want.filter (fun u => (f u.hostname).isNone) := by
  induction want with
  | nil => intro acc; simp
  | cons u us ih =>
    intro acc
    rw [List.foldl_cons, ih]
    cases h : f u.hostname <;> simp [List.filter_cons, h]

theorem dropletDiff_eq_filter (want : List user) (cur : List Droplet) :
    dropletDiff want cur =
      want.filter (fun u => decide (u.hostname ∉ cur.map Droplet.Name)) := by
  unfold dropletDiff
  rw [missing_fold, List.nil_append]
  apply List.filter_congr
  intro u _
  have h := dropMap_lookup cur u.hostname GoMap.empty
  have he : (GoMap.empty : GoMap Droplet) u.hostname = none := rfl
  simp only [he, true_and] at h
  rw [Bool.eq_iff_iff]
  simp only [Option.isNone_iff_eq_none, decide_eq_true_eq]
  exact h

/-- C1: `dropletDiff` returns the desired users whose hostname is not the `Name` of an
observed droplet, in their order and with their multiplicity: it is the filter of the
desired sequence by "hostname not among the observed names". For desired [A, B, C]
and one observed droplet that bears the hostname of B and of neither A nor C, it
returns [A, C]; when every desired hostname is an observed name, it returns []. -/
theorem dropletDiff_spec (want : List user) (cur : List Droplet) :
    dropletDiff want cur =
      want.filter (fun u => decide (u.hostname ∉ cur.map Droplet.Name)) ∧
    (∀ (A B C : user) (b : Droplet), B.hostname = b.Name → A.hostname ≠ b.Name →
      C.hostname ≠ b.Name → dropletDiff [A, B, C] [b] = [A, C]) ∧
    ((∀ u ∈ want, u.hostname ∈ cur.map Droplet.Name) → dropletDiff want cur = []) := by
  refine ⟨dropletDiff_eq_filter want cur, ?_, ?_⟩
  · intro A B C b hB hA hC
    rw [dropletDiff_eq_filter]
    simp [List.filter_cons, hB, hA, hC]
  · intro h
    rw [dropletDiff_eq_filter, List.filter_eq_nil_iff]
    intro u hu
    simp [h u hu]

theorem dropletDiff_spec_witness :
    dropletDiff
      [⟨['a'], String.toList "a.encero.xyz", [defaultKey]⟩,
       ⟨['b'], String.toList "b.encero.xyz", [defaultKey]⟩,
       ⟨['c'], String.toList "c.encero.xyz", [defaultKey]⟩]
      [⟨String.toList "b.encero.xyz", none⟩] =
      [⟨['a'], String.toList "a.encero.xyz", [defaultKey]⟩,
       ⟨['c'], String.toList "c.encero.xyz", [defaultKey]⟩] ∧
    dropletDiff
      [⟨['b'], String.toList "b.encero.xyz", [defaultKey]⟩,
       ⟨['b'], String.toList "b.encero.xyz", []⟩]
      [⟨String.toList "x.encero.xyz", none⟩, ⟨String.toList "b.encero.xyz", none⟩,
       ⟨String.toList "b.encero.xyz", some (String.toList "10.0.0.2")⟩] = [] :=
  ⟨(dropletDiff_spec [] []).2.1 _ _ _ _ (by decide) (by decide) (by decide),
   (dropletDiff_spec _ _).2.2 (by decide)⟩

/-! ## Identity, instance name and DNS label -/

theorem trimSuffix_append (n suf : Str) : trimSuffix (n ++ suf) suf = n := by
  unfold trimSuffix
  have h : suf.isSuffixOf (n ++ suf) = true := by
    rw [List.isSuffixOf_iff_suffix]
    exact List.suffix_append n suf
  simp [h]

/-- C10: `dropletHostnameFromName n` is `n`, ".", and the domain; stripping the suffix
"." + domain from it gives `n` back; hence for a droplet named after an identity `n`
the DNS pass runs `updateRecord` on the bare label `n` and on "*." + `n`. -/
theorem hostname_roundtrip (n : Str) :
    dropletHostnameFromName n = n ++ String.toList "." ++ domain ∧
    trimSuffix (dropletHostnameFromName n) (String.toList "." ++ domain) = n ∧
    trimSuffix (dropletHostnameFromName n) dropletNameSuffix = n ∧
    (∀ (P : Provider) (records : List DomainRecord) (addr : Str) (tr : List Event),
      dnsSync P records [⟨dropletHostnameFromName n, some addr⟩] tr =
        updateRecord P (String.toList "*." ++ n) (recordMap records) addr
          (updateRecord P n (recordMap records) addr tr)) := by
  have h1 : dropletHostnameFromName n = n ++ String.toList "." ++ domain := by
    simp [dropletHostnameFromName]
  have h2 : trimSuffix (dropletHostnameFromName n) (String.toList "." ++ domain) = n := by
    have := trimSuffix_append n (String.toList "." ++ domain)
    rw [← List.append_assoc] at this
    rw [h1]
    exact this
  refine ⟨h1, h2, h2, ?_⟩
  intro P records addr tr
  rw [dnsSync_single_some P records _ addr rfl tr]
  have h3 : trimSuffix (dropletHostnameFromName n) ('.' :: domain) = n := h2
  simp only [h3]
  rfl

/-! ## Properties of the instance provisioner -/

theorem createDroplet_dry (debug : Bool) (tpl : user → Except Str Str) (P : Provider)
    (usr : user) (tr : List Event) :
    callsOf (createDroplet true debug tpl P usr tr).1 = callsOf tr ∧
      (createDroplet true debug tpl P usr tr).2 = none := by
  unfold createDroplet
  cases tpl usr with
  | error e => simp [callsOf_append, callsOf_log, callsOf_nil]
  | ok usrData =>
    cases debug <;> simp [callsOf_append, callsOf_log, callsOf_stdout, callsOf_nil]

theorem createUserDroplets_dry (debug : Bool) (tpl : user → Except Str Str) (P : Provider)
    (users : List user) :
    ∀ tr, callsOf (createUserDroplets true debug tpl P users tr).1 = callsOf tr ∧
      (createUserDroplets true debug tpl P users tr).2 = none := by
  induction users with
  | nil => intro tr; simp [createUserDroplets]
  | cons u us ih =>
    intro tr
    have h := createDroplet_dry debug tpl P u tr
    unfold createUserDroplets
    cases hc : createDroplet true debug tpl P u tr with
    | mk tr1 p =>
      rw [hc] at h
      simp only at h
      obtain ⟨h1, h2⟩ := h
      subst h2
      simp only
      have := ih (tr1 ++ [.log .info "created droplet for hostname: %s" [.str u.hostname]])
      rw [this.1, this.2, callsOf_append, callsOf_log, callsOf_nil, List.append_nil, h1]
      exact ⟨rfl, rfl⟩

/-- C8: with the dry-run flag set, `createDroplet` issues no provider call (and does
not panic), for every user, template outcome and provider, and so does
`createUserDroplets` for every list of users; with the flag not set and a template
that renders, `createDroplet` issues exactly one create call, whose request name is
the hostname of the user (region, size, image, key fingerprint and tag are the
constants, the user data is the rendered template). -/
theorem createDroplet_dryrun (debug : Bool) (tpl : user → Except Str Str) (P : Provider) :
    (∀ usr tr, callsOf (createDroplet true debug tpl P usr tr).1 = callsOf tr ∧
      (createDroplet true debug tpl P usr tr).2 = none) ∧
    (∀ users tr, callsOf (createUserDroplets true debug tpl P users tr).1 = callsOf tr ∧
      (createUserDroplets true debug tpl P users tr).2 = none) ∧
    (∀ usr tr usrData, tpl usr = .ok usrData →
      callsOf (createDroplet false debug tpl P usr tr).1 = callsOf tr ++
        [Call.DropletsCreate
          { Name := usr.hostname, Region := region, Size := size, Image := distribution,
            SSHKeys := [sshFingerprint], Tags := [dropletTag], UserData := usrData }]) := by
  refine ⟨createDroplet_dry debug tpl P, createUserDroplets_dry debug tpl P, ?_⟩
  intro usr tr usrData h
  unfold createDroplet
  rw [h]
  cases debug <;> simp only [Bool.false_eq_true, if_false, if_true] <;>
    split <;>
    simp [callsOf_append, callsOf_reportReachingLimit, callsOf_call, callsOf_stdout, callsOf_nil]

theorem createDroplet_dryrun_witness :
    sampleTemplate ⟨['a'], String.toList "a.encero.xyz", [defaultKey]⟩ =
      .ok (String.toList "a.encero.xyz") ∧
    callsOf (createDroplet false true sampleTemplate failingProvider
      ⟨['a'], String.toList "a.encero.xyz", [defaultKey]⟩ []).1 =
      [Call.DropletsCreate
        { Name := String.toList "a.encero.xyz", Region := region, Size := size,
          Image := distribution, SSHKeys := [sshFingerprint], Tags := [dropletTag],
          UserData := String.toList "a.encero.xyz" }] ∧
    callsOf (createUserDroplets true true sampleTemplate failingProvider
      [⟨['a'], String.toList "a.encero.xyz", [defaultKey]⟩,
       ⟨['b'], String.toList "b.encero.xyz", []⟩] []).1 = [] :=
  ⟨rfl,
   (createDroplet_dryrun true sampleTemplate failingProvider).2.2 _ [] _ rfl,
   ((createDroplet_dryrun true sampleTemplate failingProvider).2.1 _ []).1⟩

/-! ## Properties of the key resolver -/

theorem split_no_sep (sep : Char) (a : Str) (h : sep ∉ a) : split sep a = [a] := by
  induction a with
  | nil => rfl
  | cons c cs ih =>
    have hc : ¬ c = sep := fun e => h (by simp [e])
    have hcs : sep ∉ cs := fun e => h (List.mem_cons_of_mem _ e)
    simp [split, hc, ih hcs]

theorem split_append_sep (sep : Char) (a b : Str) (h : sep ∉ a) :
    split sep (a ++ sep :: b) = a :: split sep b := by
  induction a with
  | nil => simp [split]
  | cons c cs ih =>
    have hc : ¬ c = sep := fun e => h (by simp [e])
    have hcs : sep ∉ cs := fun e => h (List.mem_cons_of_mem _ e)
    simp [split, hc, ih hcs]

theorem split_line (name key : Str) (hname : ';' ∉ name) (hkey : ';' ∉ key) :
    split ';' (name ++ String.toList ";" ++ key) = [name, key] := by
  have : name ++ String.toList ";" ++ key = name ++ ';' :: key := by simp
  rw [this, split_append_sep _ _ _ hname, split_no_sep _ _ hkey]

/-- C5: for a line `name;key` (one separator: neither part contains a ";") and the
keys `G` that `loadGithubKeys` returns for the normalized name, `makeUser` completes
and `Keys` is the trimmed inline key, if it is not empty, then all of `G` in order,
then `defaultKey`: its last element is `defaultKey`, nothing is removed, and its
length is |G| + 1 (blank inline key) or |G| + 2. -/
theorem makeUser_keys (tbl : Char → Char) (httpGet : Str → GetResult) (name key : Str)
    (G : List Str) (tr : List Event) (hname : ';' ∉ name) (hkey : ';' ∉ key)
    (hG : (loadGithubKeys httpGet (normalizeName tbl name) tr).2 = .ok G) :
    ∃ u, (makeUser tbl httpGet (name ++ String.toList ";" ++ key) tr).2 = .ok u ∧
      u.name = normalizeName tbl name ∧
      u.Keys = (if trimSpace key = [] then [] else [trimSpace key]) ++ G ++ [defaultKey] ∧
      u.Keys.getLast? = some defaultKey ∧
      u.Keys.length = G.length + (if trimSpace key = [] then 1 else 2) := by
  unfold makeUser
  rw [split_line name key hname hkey]
  simp only
  cases hl : loadGithubKeys httpGet (normalizeName tbl name) tr with
  | mk tr1 res =>
    rw [hl] at hG
    simp only at hG
    subst hG
    simp only
    refine ⟨_, rfl, rfl, ?_, ?_, ?_⟩
    · by_cases hk : trimSpace key = []
      · cases G <;> simp [hk]
      · have hpos : 0 < (trimSpace key).length := List.length_pos.2 hk
        cases G <;> simp [hk, hpos]
    · simp
    · by_cases hk : trimSpace key = []
      · cases G <;> simp [hk]
      · have hpos : 0 < (trimSpace key).length := List.length_pos.2 hk
        cases G <;> simp [hk, hpos]

theorem makeUser_keys_witness :
    (loadGithubKeys keysGet (normalizeName sampleTable (String.toList "Bob.B ")) []).2 =
      .ok [String.toList "ssh-rsa AAAAB3Nza", defaultKey] ∧
    (∃ u, (makeUser sampleTable keysGet
        (String.toList "Bob.B " ++ String.toList ";" ++ (' ' :: defaultKey ++ ['\n'])) []).2 = .ok u ∧
      u.name = normalizeName sampleTable (String.toList "Bob.B ") ∧
      u.Keys = (if trimSpace (' ' :: defaultKey ++ ['\n']) = [] then []
          else [trimSpace (' ' :: defaultKey ++ ['\n'])]) ++
        [String.toList "ssh-rsa AAAAB3Nza", defaultKey] ++ [defaultKey] ∧
      u.Keys.getLast? = some defaultKey ∧
      u.Keys.length = [String.toList "ssh-rsa AAAAB3Nza", defaultKey].length +
        (if trimSpace (' ' :: defaultKey ++ ['\n']) = [] then 1 else 2)) ∧
    (makeUser sampleTable keysGet
        (String.toList "Bob.B " ++ String.toList ";" ++ (' ' :: defaultKey ++ ['\n'])) []).2 =
      .ok ⟨String.toList "bob-b", String.toList "bob-b.encero.xyz",
        [defaultKey, String.toList "ssh-rsa AAAAB3Nza", defaultKey, defaultKey]⟩ :=
  ⟨rfl,
   makeUser_keys sampleTable keysGet (String.toList "Bob.B ") (' ' :: defaultKey ++ ['\n'])
     [String.toList "ssh-rsa AAAAB3Nza", defaultKey] [] (by decide) (by decide) rfl,
   rfl⟩

theorem makeUser_nil_response (tbl : Char → Char) (httpGet : Str → GetResult)
    (name key : Str) (tr : List Event) (hname : ';' ∉ name) (hkey : ';' ∉ key)
    (hresp : (httpGet (String.toList "https://github.com/" ++ normalizeName tbl name ++
      String.toList ".keys")).resp = none) :
    (makeUser tbl httpGet (name ++ String.toList ";" ++ key) tr).2 =
      .error .nilDereference := by
  unfold makeUser
  rw [split_line name key hname hkey]
  simp only [loadGithubKeys, hresp]

theorem makeUser_non200 (tbl : Char → Char) (httpGet : Str → GetResult)
    (name key : Str) (tr : List Event) (hname : ';' ∉ name) (hkey : ';' ∉ key)
    (hblank : trimSpace key = []) (resp : HttpResponse)
    (hresp : (httpGet (String.toList "https://github.com/" ++ normalizeName tbl name ++
      String.toList ".keys")).resp = some resp)
    (hcode : resp.StatusCode ≠ 200) :
    (makeUser tbl httpGet (name ++ String.toList ";" ++ key) tr).2 =
      .ok ⟨normalizeName tbl name, dropletHostnameFromName (normalizeName tbl name),
        [defaultKey]⟩ := by
  unfold makeUser
  rw [split_line name key hname hkey]
  simp only [loadGithubKeys, hresp, ne_eq, hcode, not_false_eq_true, if_true, hblank,
    List.length_nil, gt_iff_lt, lt_self_iff_false, if_false, List.nil_append]

/-- C4: the failing input. On the line "alice;" (blank inline key) with a key source
that cannot be reached, `http.Get` returns a nil response and an error;
`loadGithubKeys` logs the error and then dereferences the response, so `makeUser`
panics instead of returning the keys [defaultKey]. With a non-200 status the same
line does give [defaultKey]. A line without ";" panics at `parts[1]`. -/
theorem makeUser_unreachable_panics :
    (makeUser sampleTable unreachableGet (String.toList "alice;\n") []).2 =
      .error .nilDereference ∧
    (makeUser sampleTable unreachableGet (String.toList "alice;\n") []).1 =
      [Event.log .error "cant load github keys for user %s err: %s"
        [.str (String.toList "alice"), .str (String.toList "dial tcp: no such host")]] ∧
    (makeUser sampleTable notFoundGet (String.toList "alice;\n") []).2 =
      .ok ⟨String.toList "alice", String.toList "alice.encero.xyz", [defaultKey]⟩ ∧
    (makeUser sampleTable keysGet (String.toList "alice\n") []).2 =
      .error .indexOutOfRange := by
  refine ⟨rfl, rfl, rfl, rfl⟩

end Setup
